import Mathlib

set_option maxHeartbeats 1000000

namespace UniCache

/-- Epoch represents a revision of the cache data; the source stores a
time.Time, modelled here as a natural-number timestamp. -/
structure Epoch where
  epoch : Nat
deriving Repr, DecidableEq

/-- Epoch.Valid from the source: a previous epoch is valid against the
current one iff the stored times are equal. -/
def Epoch.Valid (e previous : Epoch) : Bool :=
  e.epoch == previous.epoch

/-- The Cacheable item contract consumed by the cache: an Index function and
the Equal predicate used for change detection. -/
structure Cacheable (T : Type) where
  index : T → String
  equal : T → T → Bool

/-- cacheMap, the underlying cache implementation: a Go map from index string
to item pointer, modelled as an association list whose keys are unique by
construction (buildCache rejects duplicates before inserting). -/
abbrev CacheMap (T : Type) := List (String × T)

/-- Go map lookup m[k]. -/
def mapGet {T : Type} (m : CacheMap T) (k : String) : Option T :=
  (m.find? (fun kv => kv.1 == k)).map (fun kv => kv.2)

/-- cacheMap.Equal from the source: true iff both maps are the same size,
contain the same keys, and paired values satisfy Equal. -/
def mapEqual {T : Type} (C : Cacheable T) (m o : CacheMap T) : Bool :=
  m.length == o.length &&
  m.all (fun kv =>
    match mapGet o kv.1 with
    | some ov => C.equal kv.2 ov
    | none => false)

/-- The store-building loop of doRefresh: for each item compute Index(),
fail with the offending key (ErrConflict) if it is already present,
otherwise insert. -/
def buildCache {T : Type} (C : Cacheable T) : List T → CacheMap T → Except String (CacheMap T)
  | [], acc => .ok acc
  | t :: rest, acc =>
    if (mapGet acc (C.index t)).isSome then
      .error (C.index t)
    else
      buildCache C rest (acc ++ [(C.index t, t)])

/-- The cache error taxonomy from the source; user carries an opaque error
code returned by the Refresh callback. -/
inductive GoError where
  | conflict (key : String)
  | invalid
  | notFound (index : String)
  | user (code : Nat)
deriving Repr, DecidableEq

/-- The state of a RefreshAheadCache guarded by its RWMutex: the epoch and
the installed cache map.  none models the nil Go map the cache starts with,
which Get and List compare against nil. -/
structure CacheState (T : Type) where
  epoch : Epoch := ⟨0⟩
  cache : Option (CacheMap T) := none
deriving Repr, DecidableEq

/-- The outcome of invoking the user Refresh callback: data, an error, or a
panic carrying the recovered value. -/
inductive RefreshOutcome (T : Type) where
  | ok (data : List T)
  | fail (e : GoError)
  | panic (v : Nat)

/-- doRefresh from the source.  Inputs are the callback outcome and the value
time.Now() would yield at the install point; outputs are the new state, the
returned error, and whether the deferred recover fired and logged
ErrWorkerPanic.  A panic unwinds before any state mutation (the callback,
Index() and Equal() all run before the install) and the deferred function
only logs, so the unnamed error result comes back as its zero value nil.
The change-detection branch compares the rebuilt map against the installed
one (a nil installed map behaves as empty for Equal); only on inequality is
the epoch set to time.Now() and the new map installed. -/
def doRefresh {T : Type} (C : Cacheable T) (outcome : RefreshOutcome T)
    (now : Nat) (s : CacheState T) : CacheState T × Option GoError × Bool :=
  match outcome with
  | .panic _ => (s, none, true)
  | .fail e => (s, some e, false)
  | .ok data =>
    match buildCache C data [] with
    | .error key => (s, some (.conflict key), false)
    | .ok m =>
      if mapEqual C m (s.cache.getD []) then
        (s, none, false)
      else
        ({ epoch := ⟨now⟩, cache := some m }, none, false)

/-- Get from the source: a nil cache yields ErrInvalid, a missing index
yields ErrNotFound, otherwise the current epoch and the stored item. -/
def get {T : Type} (s : CacheState T) (index : String) : Except GoError (Epoch × T) :=
  match s.cache with
  | none => .error .invalid
  | some m =>
    match mapGet m index with
    | none => .error (.notFound index)
    | some item => .ok (s.epoch, item)

/-- List from the source: a nil cache yields ErrInvalid, otherwise the
current epoch and a freshly allocated outer slice holding the stored item
pointers (the values of the map; Go iteration order is arbitrary, fixed
here as map order). -/
def listOp {T : Type} (s : CacheState T) : Except GoError (Epoch × List T) :=
  match s.cache with
  | none => .error .invalid
  | some m => .ok (s.epoch, m.map (fun kv => kv.2))

/-- One periodic tick of the worker loop started by Run: run doRefresh and
log (not propagate) any error; the Bool records whether an error was
logged. -/
def workerTick {T : Type} (C : Cacheable T) (outcome : RefreshOutcome T)
    (now : Nat) (s : CacheState T) : CacheState T × Bool :=
  let r := doRefresh C outcome now s
  (r.1, (r.2.1).isSome)

/-- The periodic worker loop: process each tick in turn; nothing stops the
loop, because errors are logged and panics are recovered inside doRefresh. -/
def workerLoop {T : Type} (C : Cacheable T) :
    List (RefreshOutcome T × Nat) → CacheState T → CacheState T
  | [], s => s
  | t :: rest, s => workerLoop C rest (workerTick C t.1 t.2 s).1

/-- The synchronous pre-population step of Run: doRefresh from the zero
state; Run returns its error and starts the worker only when it is nil. -/
def runInit {T : Type} (C : Cacheable T) (outcome : RefreshOutcome T)
    (now : Nat) : CacheState T × Option GoError :=
  let r := doRefresh C outcome now {}
  (r.1, r.2.1)

/-- RefreshAheadCacheOptions from the source; refreshPeriod is a
time.Duration in nanoseconds, 0 meaning unset. -/
structure RefreshAheadCacheOptions where
  refreshPeriod : Nat
deriving Repr, DecidableEq

/-- defaultRefreshPeriod from the source: one hour, in nanoseconds. -/
def defaultRefreshPeriod : Nat := 3600000000000

/-- The configuration part of a RefreshAheadCache; options is the stored
pointer, none modelling nil. -/
structure CacheConfig where
  options : Option RefreshAheadCacheOptions
deriving Repr, DecidableEq

/-- NewRefreshAheadCache from the source: the options pointer is stored as
given, with no nil check. -/
def newRefreshAheadCache (options : Option RefreshAheadCacheOptions) : CacheConfig :=
  { options := options }

/-- The first statements of the worker goroutine in Run: read
c.options.RefreshPeriod, falling back to defaultRefreshPeriod when zero.
Reading through a nil options pointer is a nil-pointer dereference, modelled
as none. -/
def workerRefreshPeriod (c : CacheConfig) : Option Nat :=
  match c.options with
  | none => none
  | some o => some (if o.refreshPeriod != 0 then o.refreshPeriod else defaultRefreshPeriod)

/-- A concrete item type used for witnesses: a name used as the index and a
payload compared by Equal. -/
abbrev Itm : Type := String × Nat

/-- The Cacheable instance for Itm: Index is the name, Equal is structural
equality. -/
def itmC : Cacheable Itm :=
  { index := fun t => t.1, equal := fun a b => a == b }

/-- Events observable in an execution of the invalidation gate and the
background worker.  enter c r: caller c has taken pendingLock inside
Invalidate and will wait on request r (either joining the pending request
or having just created it).  created c r: caller c created r and became the
designated sender.  pickup r: the worker received r from the invalidations
channel and cleared pending, the refresh serving r begins.  finished r e:
the doRefresh serving r returned e, which was stored in r.err before
r.done was closed, unblocking every waiter with result e.  sendFailed r:
the designated send of r panicked on the closed channel; the recover in
sendInvalidation stored ErrInvalid in r.err, cleared pending and closed
r.done. -/
inductive GEv where
  | enter (c r : Nat)
  | created (c r : Nat)
  | pickup (r : Nat)
  | finished (r : Nat) (e : Option GoError)
  | sendFailed (r : Nat)
deriving Repr, DecidableEq

/-- The shared state of the invalidation gate and the worker.  pending is
the coalescing slot guarded by pendingLock; sender is the request whose
unbuffered channel send has not yet rendezvoused with the worker; inflight
is the request whose doRefresh the worker is running; closed records that
ctx cancellation made the worker close the invalidations channel;
completed associates each request whose done channel was closed with the
error stored in it; nextReq allocates request identities. -/
structure GateCfg where
  pending : Option Nat := none
  sender : Option Nat := none
  inflight : Option Nat := none
  closed : Bool := false
  completed : List (Nat × Option GoError) := []
  nextReq : Nat := 0
deriving Repr, DecidableEq

/-- Scheduler choices for one step of the gate system: a caller running the
entry section of Invalidate, the worker receiving from the channel, the
worker finishing doRefresh with a given error, the worker observing ctx
cancellation and closing the channel, and a designated sender panicking on
the closed channel and running the recover in sendInvalidation. -/
inductive GAct where
  | invalidate (c : Nat)
  | workerRecv
  | workerFinish (e : Option GoError)
  | shutdown
  | sendFail
deriving Repr, DecidableEq

/-- One step of the gate system.  invalidate c transliterates the entry
section of Invalidate: under pendingLock, if pending holds r the caller
parks on r (no new request, nothing sent, state unchanged); otherwise it
creates a fresh request, stores it in pending and becomes the designated
sender.  workerRecv transliterates the invalidation arm of the worker
select: the send rendezvouses, pending is cleared first, then the refresh
serving r begins.  workerFinish e transliterates the rest of that arm:
request.err is assigned e and request.done is closed.  shutdown
transliterates the ctx.Done arm: the channel is closed and the loop exits.
sendFail transliterates the recover in sendInvalidation: the request fails
with ErrInvalid, pending is cleared and done is closed.  Acts whose guards
do not hold leave the configuration unchanged and emit nothing. -/
def gstep (g : GateCfg) : GAct → GateCfg × List GEv
  | .invalidate c =>
    match g.pending with
    | some r => (g, [.enter c r])
    | none =>
      let r := g.nextReq
      ({ g with pending := some r, sender := some r, nextReq := r + 1 },
       [.enter c r, .created c r])
  | .workerRecv =>
    if g.closed then (g, []) else
    match g.sender, g.inflight with
    | some r, none =>
      ({ g with sender := none, pending := none, inflight := some r }, [.pickup r])
    | _, _ => (g, [])
  | .workerFinish e =>
    match g.inflight with
    | some r =>
      ({ g with inflight := none, completed := (r, e) :: g.completed }, [.finished r e])
    | none => (g, [])
  | .shutdown =>
    if g.closed || g.inflight.isSome then (g, [])
    else ({ g with closed := true }, [])
  | .sendFail =>
    if g.closed then
      match g.sender with
      | some r =>
        let g2 := { g with sender := none, pending := none,
                           completed := (r, some GoError.invalid) :: g.completed }
        (g2, [.sendFailed r])
      | none => (g, [])
    else (g, [])

/-- Run the gate system over a list of scheduler choices, accumulating the
event trace in execution order. -/
def grun (g : GateCfg) (evs : List GEv) : List GAct → GateCfg × List GEv
  | [] => (g, evs)
  | a :: rest =>
    let r := gstep g a
    grun r.1 (evs ++ r.2) rest

/-- The result a waiter parked on request r reads after r.done is closed:
the error stored in the request. -/
def awaitResult (g : GateCfg) (r : Nat) : Option (Option GoError) :=
  (g.completed.find? (fun p => p.1 == r)).map (fun p => p.2)

/-- Heap model for List isolation: the installed cache map holds pointers
(heap identities, as Nat) to items, and every outer slice handed out by
List lives in a slice heap, addressed by index.  Slice entries are Option
pointers, none modelling a nil entry. -/
structure HeapSt where
  store : List (String × Nat)
  epoch : Epoch
  slices : List (List (Option Nat))
deriving Repr, DecidableEq

/-- List on the heap model: allocate a fresh outer slice (a new address in
the slice heap), copy the stored item pointers into it, and return its
address together with its contents and the epoch. -/
def heapList (h : HeapSt) : HeapSt × Nat × List (Option Nat) :=
  let items := h.store.map (fun kv => some kv.2)
  ({ h with slices := h.slices ++ [items] }, h.slices.length, items)

/-- Destructive caller mutation of a returned slice: the slice at address i
is replaced by arbitrary contents (covering reordering, truncation and
nil-filling); nothing else in the heap changes. -/
def mutateSlice (h : HeapSt) (i : Nat) (new : List (Option Nat)) : HeapSt :=
  { h with slices := h.slices.set i new }

/-- C2: a doRefresh whose rebuilt store is Equal to the currently installed
store returns nil and leaves the whole state, the installed map and the
Epoch included, unchanged; hence snapshots taken before and after carry
equal Epochs. -/
theorem doRefresh_stable {T : Type} (C : Cacheable T) (data : List T)
    (now : Nat) (s : CacheState T) (m : CacheMap T)
    (hb : buildCache C data [] = .ok m)
    (he : mapEqual C m (s.cache.getD []) = true) :
    doRefresh C (.ok data) now s = (s, none, false) ∧
    Epoch.Valid ((doRefresh C (.ok data) now s).1).epoch s.epoch = true := by
  have h : doRefresh C (.ok data) now s = (s, none, false) := by
    simp [doRefresh, hb, he]
  refine ⟨h, ?_⟩
  rw [h]
  simp [Epoch.Valid]

/-- Witness for C2 at a concrete equal refresh: the rebuilt store for the
dataset equals the installed one, so the call mutates nothing. -/
theorem doRefresh_stable_witness :
    doRefresh itmC (.ok [("a", 1)]) 9 ⟨⟨3⟩, some [("a", ("a", 1))]⟩ =
      (⟨⟨3⟩, some [("a", ("a", 1))]⟩, none, false) ∧
    Epoch.Valid ((doRefresh itmC (.ok [("a", 1)]) 9
      ⟨⟨3⟩, some [("a", ("a", 1))]⟩).1).epoch (⟨3⟩ : Epoch) = true :=
  doRefresh_stable itmC [("a", 1)] 9 ⟨⟨3⟩, some [("a", ("a", 1))]⟩
    [("a", ("a", 1))] rfl (by decide)

/-- Counterexample to C3 as stated: the epoch assigned by a content-changing
refresh is time.Now(), not a value distinct from all previously assigned
ones.  Two content-changing refreshes performed at the same clock reading 5
(the second rebuilt store is not Equal to the first installed store, so the
change branch runs) assign the same Epoch, and Epoch.Valid across the
content change is true rather than false. -/
theorem epoch_reuse_cex :
    mapEqual itmC [("a", ("a", 2))] [("a", ("a", 1))] = false ∧
    doRefresh itmC (.ok [("a", 1)]) 5 {} =
      (⟨⟨5⟩, some [("a", ("a", 1))]⟩, none, false) ∧
    doRefresh itmC (.ok [("a", 2)]) 5 ⟨⟨5⟩, some [("a", ("a", 1))]⟩ =
      (⟨⟨5⟩, some [("a", ("a", 2))]⟩, none, false) ∧
    Epoch.Valid (⟨5⟩ : Epoch) (⟨5⟩ : Epoch) = true := by
  refine ⟨by decide, by decide, by decide, by decide⟩

/-- C3 amended: a refresh that detects content change installs the rebuilt
store and assigns the current wall-clock reading as the Epoch; the new
Epoch differs from the pre-refresh one, and Epoch.Valid between the two
snapshots is false, exactly when the clock reading differs from the old
Epoch value (in particular whenever the clock is strictly increasing). -/
theorem epoch_advance_on_change {T : Type} (C : Cacheable T) (data : List T)
    (now : Nat) (s : CacheState T) (m : CacheMap T)
    (hb : buildCache C data [] = .ok m)
    (hne : mapEqual C m (s.cache.getD []) = false)
    (hnow : now ≠ s.epoch.epoch) :
    doRefresh C (.ok data) now s = ({ epoch := ⟨now⟩, cache := some m }, none, false) ∧
    Epoch.Valid (⟨now⟩ : Epoch) s.epoch = false := by
  constructor
  · simp [doRefresh, hb, hne]
  · simp [Epoch.Valid, hnow]

/-- Witness for the amended C3: a content-changing refresh at clock reading
6 over a state with epoch 5 installs the new store and invalidates the old
epoch. -/
theorem epoch_advance_on_change_witness :
    doRefresh itmC (.ok [("a", 2)]) 6 ⟨⟨5⟩, some [("a", ("a", 1))]⟩ =
      (⟨⟨6⟩, some [("a", ("a", 2))]⟩, none, false) ∧
    Epoch.Valid (⟨6⟩ : Epoch) (⟨5⟩ : Epoch) = false :=
  epoch_advance_on_change itmC [("a", 2)] 6 ⟨⟨5⟩, some [("a", ("a", 1))]⟩
    [("a", ("a", 2))] rfl (by decide) (by decide)

/-- Counterexample to C4 as stated: a panic in the refresh pipeline is
recovered and logged (third component true) and the state is untouched, but
doRefresh does not return a non-fatal error: the deferred recover only
logs, so the unnamed error result comes back as nil (none), making the
panicked refresh indistinguishable from a successful no-op. -/
theorem panic_returns_nil_cex :
    doRefresh itmC (.panic 42) 6 ⟨⟨2⟩, some [("a", ("a", 1))]⟩ =
      (⟨⟨2⟩, some [("a", ("a", 1))]⟩, none, true) := by
  decide

/-- C4 amended: a panic during doRefresh is recovered and logged, the cache
state is unchanged, the background worker loop keeps running (a panicked
tick is a no-op for the loop), but doRefresh returns nil rather than an
error. -/
theorem panic_recovered_loop_continues {T : Type} (C : Cacheable T)
    (v now : Nat) (s : CacheState T) (ticks : List (RefreshOutcome T × Nat)) :
    doRefresh C (.panic v) now s = (s, none, true) ∧
    workerLoop C ((.panic v, now) :: ticks) s = workerLoop C ticks s := by
  constructor
  · rfl
  · simp [workerLoop, workerTick, doRefresh]

/-- C10: NewRefreshAheadCache stores the options pointer verbatim with no
nil check, and the worker started by Run unconditionally reads
options.RefreshPeriod; with a nil options pointer this read is a nil
dereference (none), while with any non-nil options it yields a period. -/
theorem nil_options_worker_deref :
    (∀ opts, (newRefreshAheadCache opts).options = opts) ∧
    workerRefreshPeriod (newRefreshAheadCache none) = none ∧
    (∀ o : RefreshAheadCacheOptions,
      (workerRefreshPeriod (newRefreshAheadCache (some o))).isSome = true) := by
  refine ⟨fun _ => rfl, rfl, fun o => ?_⟩
  simp [workerRefreshPeriod, newRefreshAheadCache]

lemma mapGet_isSome_iff {T : Type} (m : CacheMap T) (k : String) :
    (mapGet m k).isSome = true ↔ k ∈ m.map Prod.fst := by
  induction m with
  | nil => simp [mapGet]
  | cons kv rest ih =>
    by_cases hk : kv.1 = k
    · simp [mapGet, List.find?_cons, hk]
    · have hbeq : (kv.1 == k) = false := beq_eq_false_iff_ne.mpr hk
      have hred : mapGet (kv :: rest) k = mapGet rest k := by
        simp [mapGet, List.find?_cons, hbeq]
      rw [hred, ih]
      simp only [List.map_cons, List.mem_cons]
      constructor
      · intro hmem
        exact Or.inr hmem
      · intro hmem
        rcases hmem with heq | hmem
        · exact absurd heq.symm hk
        · exact hmem

lemma buildCache_conflict_aux {T : Type} (C : Cacheable T) (data : List T) :
    ∀ acc : CacheMap T, (acc.map Prod.fst).Nodup →
      ((∃ k, buildCache C data acc = .error k) ↔
        ¬ (acc.map Prod.fst ++ data.map C.index).Nodup) := by
  induction data with
  | nil =>
    intro acc hacc
    simp [buildCache, hacc]
  | cons t rest ih =>
    intro acc hacc
    by_cases hmem : (mapGet acc (C.index t)).isSome = true
    · have hk : C.index t ∈ acc.map Prod.fst := (mapGet_isSome_iff acc _).mp hmem
      constructor
      · intro _ hnd
        rcases List.nodup_append.mp hnd with ⟨_, _, hdisj⟩
        exact hdisj hk (List.mem_cons_self _ _)
      · intro _
        exact ⟨C.index t, by simp [buildCache, hmem]⟩
    · have hk : C.index t ∉ acc.map Prod.fst := by
        intro hc
        exact hmem ((mapGet_isSome_iff acc _).mpr hc)
      have hacc2 : ((acc ++ [(C.index t, t)]).map Prod.fst).Nodup := by
        rw [List.map_append, List.nodup_append]
        refine ⟨hacc, List.nodup_singleton _, ?_⟩
        intro a ha hb
        simp at hb
        subst hb
        exact hk ha
      have hstep : buildCache C (t :: rest) acc =
          buildCache C rest (acc ++ [(C.index t, t)]) := by
        simp [buildCache, hmem]
      rw [hstep, ih (acc ++ [(C.index t, t)]) hacc2, List.map_append]
      simp [List.append_assoc]

lemma buildCache_ok_length {T : Type} (C : Cacheable T) (data : List T) :
    ∀ acc m : CacheMap T, buildCache C data acc = .ok m →
      m.length = acc.length + data.length := by
  induction data with
  | nil =>
    intro acc m h
    simp [buildCache] at h
    subst h
    simp
  | cons t rest ih =>
    intro acc m h
    by_cases hmem : (mapGet acc (C.index t)).isSome = true
    · simp [buildCache, hmem] at h
    · have hstep : buildCache C (t :: rest) acc =
          buildCache C rest (acc ++ [(C.index t, t)]) := by
        simp [buildCache, hmem]
      rw [hstep] at h
      have := ih (acc ++ [(C.index t, t)]) m h
      simp at this
      simp [this]
      omega

/-- C8: for a refresh whose callback succeeded, doRefresh reports an
ErrConflict exactly when the dataset maps two items to the same Index();
and whenever doRefresh returns a non-nil error, of any kind, the installed
store and the Epoch are exactly as before the call. -/
theorem doRefresh_conflict_iff_frame {T : Type} (C : Cacheable T) (data : List T)
    (now : Nat) (s : CacheState T) :
    ((∃ k, (doRefresh C (.ok data) now s).2.1 = some (.conflict k)) ↔
      ¬ (data.map C.index).Nodup) ∧
    (∀ outcome : RefreshOutcome T, (doRefresh C outcome now s).2.1 ≠ none →
      (doRefresh C outcome now s).1 = s) := by
  constructor
  · have aux := buildCache_conflict_aux C data [] (by simp)
    simp only [List.map_nil, List.nil_append] at aux
    cases hb : buildCache C data [] with
    | error k =>
      have hex : ∃ k0, buildCache C data [] = .error k0 := ⟨k, hb⟩
      constructor
      · intro _
        exact aux.mp hex
      · intro _
        exact ⟨k, by simp [doRefresh, hb]⟩
    | ok m =>
      have hnd : (data.map C.index).Nodup := by
        by_contra hc
        rcases aux.mpr hc with ⟨k0, hk0⟩
        rw [hb] at hk0
        exact Except.noConfusion hk0
      constructor
      · rintro ⟨k, hk⟩
        by_cases he : mapEqual C m (s.cache.getD []) = true
        · simp [doRefresh, hb, he] at hk
        · simp [doRefresh, hb, he] at hk
      · intro hc
        exact absurd hnd hc
  · intro outcome hne
    cases outcome with
    | panic v => simp [doRefresh] at hne
    | fail e => rfl
    | ok d2 =>
      cases hb : buildCache C d2 [] with
      | error k => simp [doRefresh, hb]
      | ok m =>
        by_cases he : mapEqual C m (s.cache.getD []) = true
        · simp [doRefresh, hb, he]
        · simp [doRefresh, hb, he] at hne

/-- Witness for C8 at a concrete conflicting dataset: both items index to
the key a, and the erroring call leaves the state intact. -/
theorem doRefresh_conflict_witness :
    (doRefresh itmC (.ok [("a", 1), ("a", 2)]) 3 ⟨⟨2⟩, some [("b", ("b", 7))]⟩).1 =
      ⟨⟨2⟩, some [("b", ("b", 7))]⟩ :=
  (doRefresh_conflict_iff_frame itmC [("a", 1), ("a", 2)] 3
    ⟨⟨2⟩, some [("b", ("b", 7))]⟩).2 (.ok [("a", 1), ("a", 2)]) (by decide)

lemma doRefresh_cache_isSome {T : Type} (C : Cacheable T) (outcome : RefreshOutcome T)
    (now : Nat) (s : CacheState T) (h : s.cache.isSome = true) :
    ((doRefresh C outcome now s).1).cache.isSome = true := by
  cases outcome with
  | panic v => exact h
  | fail e => exact h
  | ok data =>
    cases hb : buildCache C data [] with
    | error k => simpa [doRefresh, hb] using h
    | ok m =>
      by_cases he : mapEqual C m (s.cache.getD []) = true
      · simpa [doRefresh, hb, he] using h
      · simp [doRefresh, hb, he]

lemma workerLoop_cache_isSome {T : Type} (C : Cacheable T)
    (ticks : List (RefreshOutcome T × Nat)) :
    ∀ s : CacheState T, s.cache.isSome = true →
      (workerLoop C ticks s).cache.isSome = true := by
  induction ticks with
  | nil =>
    intro s h
    exact h
  | cons t rest ih =>
    intro s h
    simp only [workerLoop, workerTick]
    exact ih _ (doRefresh_cache_isSome C t.1 t.2 s h)

lemma reads_not_invalid {T : Type} (s : CacheState T) (h : s.cache.isSome = true) :
    listOp s ≠ .error GoError.invalid ∧
      ∀ ix, get s ix ≠ .error GoError.invalid := by
  obtain ⟨m, hm⟩ := Option.isSome_iff_exists.mp h
  constructor
  · simp [listOp, hm]
  · intro ix
    cases hg : mapGet m ix with
    | none => simp [get, hm, hg]
    | some item => simp [get, hm, hg]

/-- Counterexample to C5 as stated: when the initial Refresh callback
returns the empty dataset, the rebuilt empty store is Equal to the nil
starting store (both sizes are zero), so doRefresh succeeds without
installing anything; Run returns nil, yet every subsequent Get and List
still fails with ErrInvalid because the cache map is still nil. -/
theorem run_ready_empty_cex :
    runInit itmC (.ok []) 7 = ({}, none) ∧
    listOp ({} : CacheState Itm) = .error GoError.invalid ∧
    get ({} : CacheState Itm) "a" = .error GoError.invalid :=
  ⟨rfl, rfl, rfl⟩

/-- C5 amended: if Run succeeds and the initial dataset is non-empty, the
rebuilt store is installed and the cache map is non-nil from then on;
whatever refreshes the worker performs afterwards, no Get or List returns
ErrInvalid. -/
theorem run_ready_nonempty {T : Type} (C : Cacheable T) (data : List T) (now : Nat)
    (hne : data ≠ []) (hok : (runInit C (.ok data) now).2 = none) :
    ((runInit C (.ok data) now).1.cache.isSome = true) ∧
    (∀ ticks : List (RefreshOutcome T × Nat),
      listOp (workerLoop C ticks (runInit C (.ok data) now).1) ≠
        .error GoError.invalid ∧
      ∀ ix, get (workerLoop C ticks (runInit C (.ok data) now).1) ix ≠
        .error GoError.invalid) := by
  have h1 : (runInit C (.ok data) now).1.cache.isSome = true := by
    cases hb : buildCache C data [] with
    | error k =>
      exfalso
      simp [runInit, doRefresh, hb] at hok
    | ok m =>
      have hlen : m.length = data.length := by
        simpa using buildCache_ok_length C data [] m hb
      have hmne : m.length ≠ 0 := by
        rw [hlen]
        simpa [List.length_eq_zero] using hne
      have hbeq : (m.length == ([] : CacheMap T).length) = false := by
        simp only [List.length_nil, beq_eq_false_iff_ne, ne_eq]
        exact hmne
      have hfalse : mapEqual C m [] = false := by
        unfold mapEqual
        rw [hbeq, Bool.false_and]
      simp [runInit, doRefresh, hb, hfalse]
  refine ⟨h1, fun ticks => ?_⟩
  exact reads_not_invalid _ (workerLoop_cache_isSome C ticks _ h1)

/-- Witness for the amended C5 at a concrete non-empty initial dataset. -/
theorem run_ready_nonempty_witness :
    (runInit itmC (.ok [("a", 1)]) 4).1.cache.isSome = true :=
  (run_ready_nonempty itmC [("a", 1)] 4 (by decide) rfl).1

/-- C9: List allocates a fresh outer slice whose length is the store size
and whose entries are exactly the stored item pointers, all non-nil;
destructive mutation of that slice (modelled as replacing its contents by
arbitrary junk) leaves the store untouched, and a subsequent List returns
a new slice, at a different address, again of full length with all entries
non-nil and equal to the stored pointers. -/
theorem list_isolation (h : HeapSt) (junk : List (Option Nat)) :
    (heapList h).2.2.length = h.store.length ∧
    (∀ x ∈ (heapList h).2.2, x.isSome = true) ∧
    (heapList h).2.2 = h.store.map (fun kv => some kv.2) ∧
    (mutateSlice (heapList h).1 (heapList h).2.1 junk).store = h.store ∧
    (heapList (mutateSlice (heapList h).1 (heapList h).2.1 junk)).2.2 =
      h.store.map (fun kv => some kv.2) ∧
    (heapList (mutateSlice (heapList h).1 (heapList h).2.1 junk)).2.2.length =
      h.store.length ∧
    (heapList (mutateSlice (heapList h).1 (heapList h).2.1 junk)).2.1 ≠
      (heapList h).2.1 := by
  refine ⟨by simp [heapList], ?_, rfl, rfl, rfl, by simp [heapList, mutateSlice], ?_⟩
  · intro x hx
    simp [heapList, List.mem_map] at hx
    rcases hx with ⟨a, b, hmem, he⟩
    rw [← he]
    rfl
  · simp [heapList, mutateSlice]

/-- C6: an Invalidate call entering the gate while a pending request exists
parks on that request: the configuration is unchanged (no new request is
allocated, nothing is placed on the invalidation channel, pending stays as
it was) and the only event is the caller joining request r, whose stored
error it will return once r completes. -/
theorem invalidate_joins_pending (g : GateCfg) (c r : Nat)
    (hp : g.pending = some r) :
    gstep g (.invalidate c) = (g, [GEv.enter c r]) := by
  simp [gstep, hp]

/-- Witness for C6 at a concrete configuration with a pending request. -/
theorem invalidate_joins_pending_witness :
    gstep { pending := some 0, nextReq := 1 } (.invalidate 7) =
      ({ pending := some 0, nextReq := 1 }, [GEv.enter 7 0]) :=
  invalidate_joins_pending { pending := some 0, nextReq := 1 } 7 0 rfl

/-- C7: when the invalidation channel is closed and a designated sender has
an outstanding send, the recover in sendInvalidation fires: pending is
cleared, the request is completed with ErrInvalid stored in it before its
done channel closes, so every waiter parked on the request, and the sender
itself, read ErrInvalid. -/
theorem sendfail_propagates_invalid (g : GateCfg) (r : Nat)
    (hc : g.closed = true) (hs : g.sender = some r) :
    (gstep g .sendFail).1.pending = none ∧
    (gstep g .sendFail).1.sender = none ∧
    (gstep g .sendFail).2 = [GEv.sendFailed r] ∧
    awaitResult (gstep g .sendFail).1 r = some (some GoError.invalid) := by
  simp [gstep, hc, hs, awaitResult]

/-- A concrete closed-channel gate configuration with an outstanding
designated sender, used by the C7 witness. -/
def sfCfg : GateCfg :=
  { pending := some 0, sender := some 0, closed := true, nextReq := 1 }

/-- Witness for C7 at a concrete closed-channel configuration. -/
theorem sendfail_propagates_invalid_witness :
    (gstep sfCfg .sendFail).1.pending = none ∧
    (gstep sfCfg .sendFail).1.sender = none ∧
    (gstep sfCfg .sendFail).2 = [GEv.sendFailed 0] ∧
    awaitResult (gstep sfCfg .sendFail).1 0 = some (some GoError.invalid) :=
  sendfail_propagates_invalid sfCfg 0 rfl rfl

/-- The request id an event is about. -/
def reqOf : GEv → Nat
  | .enter _ r => r
  | .created _ r => r
  | .pickup r => r
  | .finished r _ => r
  | .sendFailed r => r

/-- Freshness well-formedness of a trace: wherever a pickup of request r
appears, no caller joins r afterwards (so every waiter on r entered the
gate strictly before the refresh serving r began), no completion of r
precedes the pickup, and r is not picked up a second time. -/
def Good (evs : List GEv) : Prop :=
  ∀ r l1 l2, evs = l1 ++ GEv.pickup r :: l2 →
    (∀ c, GEv.enter c r ∉ l2) ∧ (∀ e, GEv.finished r e ∉ l1) ∧
    GEv.pickup r ∉ l2

lemma concat_split {α : Type} {evs l1 l2 : List α} {a x : α}
    (h : evs ++ [x] = l1 ++ a :: l2) :
    (l1 = evs ∧ a = x ∧ l2 = []) ∨
      (∃ l2p, l2 = l2p ++ [x] ∧ evs = l1 ++ a :: l2p) := by
  rcases List.eq_nil_or_concat l2 with h2 | ⟨l2p, y, h2⟩
  · subst h2
    have hinj := List.append_inj' h (by simp)
    refine Or.inl ⟨hinj.1.symm, ?_, rfl⟩
    have := hinj.2
    simpa using this.symm
  · rw [List.concat_eq_append] at h2
    subst h2
    have hr : l1 ++ a :: (l2p ++ [y]) = (l1 ++ a :: l2p) ++ [y] := by
      simp
    rw [hr] at h
    have hinj := List.append_inj' h (by simp)
    have hxy : x = y := by simpa using hinj.2
    subst hxy
    exact Or.inr ⟨l2p, rfl, hinj.1⟩

lemma good_append_enter {evs : List GEv} {c r : Nat}
    (hg : Good evs) (hp : GEv.pickup r ∉ evs) :
    Good (evs ++ [GEv.enter c r]) := by
  unfold Good
  intro r0 l1 l2 h
  rcases concat_split h with ⟨he1, he2, he3⟩ | ⟨l2p, hl2, hevs⟩
  · exact absurd he2 (by simp)
  · obtain ⟨ha, hb, hc⟩ := hg r0 l1 l2p hevs
    have hr : r0 ≠ r := by
      intro he
      subst he
      exact hp (by rw [hevs]; exact List.mem_append.mpr (Or.inr (List.mem_cons_self _ _)))
    subst hl2
    refine ⟨?_, hb, ?_⟩
    · intro c0 hmem
      rcases List.mem_append.mp hmem with hmem | hmem
      · exact ha c0 hmem
      · simp at hmem
        exact hr hmem.2
    · intro hmem
      rcases List.mem_append.mp hmem with hmem | hmem
      · exact hc hmem
      · simp at hmem

lemma good_append_pickup {evs : List GEv} {r : Nat}
    (hg : Good evs) (hp : GEv.pickup r ∉ evs)
    (hf : ∀ e, GEv.finished r e ∉ evs) :
    Good (evs ++ [GEv.pickup r]) := by
  unfold Good
  intro r0 l1 l2 h
  rcases concat_split h with ⟨he1, he2, he3⟩ | ⟨l2p, hl2, hevs⟩
  · injection he2 with hr0
    subst hr0
    subst he1
    subst he3
    exact ⟨by simp, fun e => hf e, by simp⟩
  · obtain ⟨ha, hb, hc⟩ := hg r0 l1 l2p hevs
    have hr : r0 ≠ r := by
      intro he
      subst he
      exact hp (by rw [hevs]; exact List.mem_append.mpr (Or.inr (List.mem_cons_self _ _)))
    subst hl2
    refine ⟨?_, hb, ?_⟩
    · intro c0 hmem
      rcases List.mem_append.mp hmem with hmem | hmem
      · exact ha c0 hmem
      · simp at hmem
    · intro hmem
      rcases List.mem_append.mp hmem with hmem | hmem
      · exact hc hmem
      · simp at hmem
        exact hr hmem

lemma good_append_other {evs : List GEv} {x : GEv}
    (hg : Good evs)
    (hx1 : ∀ c r, x ≠ GEv.enter c r)
    (hx2 : ∀ r, x ≠ GEv.pickup r) :
    Good (evs ++ [x]) := by
  unfold Good
  intro r0 l1 l2 h
  rcases concat_split h with ⟨he1, he2, he3⟩ | ⟨l2p, hl2, hevs⟩
  · exact absurd he2.symm (hx2 r0)
  · obtain ⟨ha, hb, hc⟩ := hg r0 l1 l2p hevs
    subst hl2
    refine ⟨?_, hb, ?_⟩
    · intro c0 hmem
      rcases List.mem_append.mp hmem with hmem | hmem
      · exact ha c0 hmem
      · simp at hmem
        exact absurd hmem.symm (hx1 c0 r0)
    · intro hmem
      rcases List.mem_append.mp hmem with hmem | hmem
      · exact hc hmem
      · simp at hmem
        exact absurd hmem.symm (hx2 r0)

/-- The inductive invariant of the gate system: all event ids are below the
allocator, a pending request has not been picked up, a designated sender's
request is still the pending one and has not completed, inflight ids are
allocated, sender and inflight never coincide, and the trace is Good. -/
def GateInv (g : GateCfg) (evs : List GEv) : Prop :=
  (∀ ev ∈ evs, reqOf ev < g.nextReq) ∧
  (∀ r, g.pending = some r → r < g.nextReq ∧ GEv.pickup r ∉ evs) ∧
  (∀ r, g.sender = some r → g.pending = some r ∧ ∀ e, GEv.finished r e ∉ evs) ∧
  (∀ r, g.inflight = some r → r < g.nextReq) ∧
  (∀ r r0, g.sender = some r → g.inflight = some r0 → r0 ≠ r) ∧
  Good evs

lemma gateInv_init : GateInv {} [] := by
  unfold GateInv
  refine ⟨?_, ?_, ?_, ?_, ?_, ?_⟩
  · intro ev hev
    simp at hev
  · intro r h0
    exact Option.noConfusion h0
  · intro r h0
    exact Option.noConfusion h0
  · intro r h0
    exact Option.noConfusion h0
  · intro r r0 h0
    exact Option.noConfusion h0
  · unfold Good
    intro r l1 l2 hl
    exact absurd hl (by simp)

/-- The configuration after a caller creates a fresh request: it becomes
both the pending request and the designated sender. -/
def gCreate (g : GateCfg) : GateCfg :=
  { g with pending := some g.nextReq, sender := some g.nextReq,
           nextReq := g.nextReq + 1 }

/-- The configuration after the worker receives request r: the send has
rendezvoused, pending is cleared, the refresh serving r begins. -/
def gRecv (g : GateCfg) (r : Nat) : GateCfg :=
  { g with sender := none, pending := none, inflight := some r }

/-- The configuration after the worker stores e in request r and closes its
done channel. -/
def gFinish (g : GateCfg) (r : Nat) (e : Option GoError) : GateCfg :=
  { g with inflight := none, completed := (r, e) :: g.completed }

/-- The configuration after the worker closes the invalidations channel. -/
def gClose (g : GateCfg) : GateCfg :=
  { g with closed := true }

/-- The configuration after the recover in sendInvalidation handles a send
on the closed channel for request r. -/
def gFail (g : GateCfg) (r : Nat) : GateCfg :=
  { g with sender := none, pending := none,
           completed := (r, some GoError.invalid) :: g.completed }

lemma gateInv_step (g : GateCfg) (evs : List GEv) (a : GAct)
    (h : GateInv g evs) :
    GateInv (gstep g a).1 (evs ++ (gstep g a).2) := by
  obtain ⟨hbound, hpend, hsend, hinf, hsi, hgood⟩ := h
  cases a with
  | invalidate c =>
    cases hp : g.pending with
    | some r =>
      obtain ⟨hrlt, hrpk⟩ := hpend r hp
      have hred : gstep g (.invalidate c) = (g, [GEv.enter c r]) := by
        simp [gstep, hp]
      rw [hred]
      unfold GateInv
      refine ⟨?_, ?_, ?_, hinf, hsi, good_append_enter hgood hrpk⟩
      · intro ev hev
        rcases List.mem_append.mp hev with hev | hev
        · exact hbound ev hev
        · simp at hev
          subst hev
          simpa [reqOf] using hrlt
      · intro r0 h0
        obtain ⟨h1, h2⟩ := hpend r0 h0
        refine ⟨h1, fun hmem => ?_⟩
        rcases List.mem_append.mp hmem with hmem | hmem
        · exact h2 hmem
        · simp at hmem
      · intro r0 h0
        obtain ⟨h1, h2⟩ := hsend r0 h0
        refine ⟨h1, fun e hmem => ?_⟩
        rcases List.mem_append.mp hmem with hmem | hmem
        · exact h2 e hmem
        · simp at hmem
    | none =>
      have hpk_not : GEv.pickup g.nextReq ∉ evs := fun hmem =>
        absurd (hbound _ hmem) (by simp [reqOf])
      have hfin_not : ∀ e, GEv.finished g.nextReq e ∉ evs := fun e hmem =>
        absurd (hbound _ hmem) (by simp [reqOf])
      have hred : gstep g (.invalidate c) =
          (gCreate g, [GEv.enter c g.nextReq, GEv.created c g.nextReq]) := by
        simp [gstep, hp, gCreate]
      rw [hred]
      unfold GateInv
      refine ⟨?_, ?_, ?_, ?_, ?_, ?_⟩
      · intro ev hev
        rcases List.mem_append.mp hev with hev | hev
        · exact Nat.lt_trans (hbound ev hev) (Nat.lt_succ_self _)
        · simp at hev
          rcases hev with hev | hev <;> subst hev <;> exact Nat.lt_succ_self _
      · intro r0 h0
        have he : g.nextReq = r0 := Option.some.inj h0
        subst he
        refine ⟨Nat.lt_succ_self _, fun hmem => ?_⟩
        rcases List.mem_append.mp hmem with hmem | hmem
        · exact hpk_not hmem
        · simp at hmem
      · intro r0 h0
        have he : g.nextReq = r0 := Option.some.inj h0
        subst he
        refine ⟨rfl, fun e hmem => ?_⟩
        rcases List.mem_append.mp hmem with hmem | hmem
        · exact hfin_not e hmem
        · simp at hmem
      · intro r0 h0
        exact Nat.lt_trans (hinf r0 h0) (Nat.lt_succ_self _)
      · intro r1 r0 hs0 hi0
        have he : g.nextReq = r1 := Option.some.inj hs0
        subst he
        exact Nat.ne_of_lt (hinf r0 hi0)
      · have hassoc : evs ++ [GEv.enter c g.nextReq, GEv.created c g.nextReq] =
            (evs ++ [GEv.enter c g.nextReq]) ++ [GEv.created c g.nextReq] := by
          simp
        rw [hassoc]
        exact good_append_other (good_append_enter hgood hpk_not)
          (fun c0 r0 => by simp) (fun r0 => by simp)
  | workerRecv =>
    by_cases hc : g.closed = true
    · have hred : gstep g .workerRecv = (g, []) := by simp [gstep, hc]
      rw [hred, List.append_nil]
      unfold GateInv
      exact ⟨hbound, hpend, hsend, hinf, hsi, hgood⟩
    · cases hs : g.sender with
      | none =>
        have hred : gstep g .workerRecv = (g, []) := by
          cases hi : g.inflight with
          | none => simp [gstep, hc, hs, hi]
          | some r1 => simp [gstep, hc, hs, hi]
        rw [hred, List.append_nil]
        unfold GateInv
        exact ⟨hbound, hpend, hsend, hinf, hsi, hgood⟩
      | some r =>
        cases hi : g.inflight with
        | some r1 =>
          have hred : gstep g .workerRecv = (g, []) := by
            simp [gstep, hc, hs, hi]
          rw [hred, List.append_nil]
          unfold GateInv
          exact ⟨hbound, hpend, hsend, hinf, hsi, hgood⟩
        | none =>
          obtain ⟨hpr, hfin⟩ := hsend r hs
          obtain ⟨hrlt, hpk⟩ := hpend r hpr
          have hred : gstep g .workerRecv = (gRecv g r, [GEv.pickup r]) := by
            simp [gstep, hc, hs, hi, gRecv]
          rw [hred]
          unfold GateInv
          refine ⟨?_, ?_, ?_, ?_, ?_, good_append_pickup hgood hpk hfin⟩
          · intro ev hev
            rcases List.mem_append.mp hev with hev | hev
            · exact hbound ev hev
            · simp at hev
              subst hev
              simpa [reqOf] using hrlt
          · intro r0 h0
            exact Option.noConfusion h0
          · intro r0 h0
            exact Option.noConfusion h0
          · intro r0 h0
            have he : r = r0 := Option.some.inj h0
            subst he
            exact hrlt
          · intro r1 r0 hs0 hi0
            exact Option.noConfusion hs0
  | workerFinish e =>
    cases hi : g.inflight with
    | none =>
      have hred : gstep g (.workerFinish e) = (g, []) := by simp [gstep, hi]
      rw [hred, List.append_nil]
      unfold GateInv
      exact ⟨hbound, hpend, hsend, hinf, hsi, hgood⟩
    | some r =>
      have hrlt := hinf r hi
      have hred : gstep g (.workerFinish e) = (gFinish g r e, [GEv.finished r e]) := by
        simp [gstep, hi, gFinish]
      rw [hred]
      unfold GateInv
      refine ⟨?_, ?_, ?_, ?_, ?_, ?_⟩
      · intro ev hev
        rcases List.mem_append.mp hev with hev | hev
        · exact hbound ev hev
        · simp at hev
          subst hev
          simpa [reqOf] using hrlt
      · intro r0 h0
        obtain ⟨h1, h2⟩ := hpend r0 h0
        refine ⟨h1, fun hmem => ?_⟩
        rcases List.mem_append.mp hmem with hmem | hmem
        · exact h2 hmem
        · simp at hmem
      · intro r0 h0
        obtain ⟨h1, h2⟩ := hsend r0 h0
        refine ⟨h1, fun e0 hmem => ?_⟩
        rcases List.mem_append.mp hmem with hmem | hmem
        · exact h2 e0 hmem
        · simp at hmem
          exact (hsi r0 r h0 hi) hmem.1.symm
      · intro r0 h0
        exact Option.noConfusion h0
      · intro r1 r0 hs0 hi0
        exact Option.noConfusion hi0
      · exact good_append_other hgood (fun c0 r0 => by simp) (fun r0 => by simp)
  | shutdown =>
    by_cases hcond : (g.closed || g.inflight.isSome) = true
    · have hred : gstep g .shutdown = (g, []) := by simp [gstep, hcond]
      rw [hred, List.append_nil]
      unfold GateInv
      exact ⟨hbound, hpend, hsend, hinf, hsi, hgood⟩
    · have hred : gstep g .shutdown = (gClose g, []) := by
        simp [gstep, hcond, gClose]
      rw [hred, List.append_nil]
      unfold GateInv
      exact ⟨hbound, hpend, hsend, hinf, hsi, hgood⟩
  | sendFail =>
    by_cases hc : g.closed = true
    · cases hs : g.sender with
      | none =>
        have hred : gstep g .sendFail = (g, []) := by simp [gstep, hc, hs]
        rw [hred, List.append_nil]
        unfold GateInv
        exact ⟨hbound, hpend, hsend, hinf, hsi, hgood⟩
      | some r =>
        obtain ⟨hpr, hfin⟩ := hsend r hs
        obtain ⟨hrlt, hpk⟩ := hpend r hpr
        have hred : gstep g .sendFail = (gFail g r, [GEv.sendFailed r]) := by
          simp [gstep, hc, hs, gFail]
        rw [hred]
        unfold GateInv
        refine ⟨?_, ?_, ?_, hinf, ?_, ?_⟩
        · intro ev hev
          rcases List.mem_append.mp hev with hev | hev
          · exact hbound ev hev
          · simp at hev
            subst hev
            simpa [reqOf] using hrlt
        · intro r0 h0
          exact Option.noConfusion h0
        · intro r0 h0
          exact Option.noConfusion h0
        · intro r1 r0 hs0 hi0
          exact Option.noConfusion hs0
        · exact good_append_other hgood (fun c0 r0 => by simp) (fun r0 => by simp)
    · have hred : gstep g .sendFail = (g, []) := by simp [gstep, hc]
      rw [hred, List.append_nil]
      unfold GateInv
      exact ⟨hbound, hpend, hsend, hinf, hsi, hgood⟩

lemma gateInv_run (acts : List GAct) :
    ∀ (g : GateCfg) (evs : List GEv), GateInv g evs →
      GateInv (grun g evs acts).1 (grun g evs acts).2 := by
  induction acts with
  | nil =>
    intro g evs h
    simpa [grun] using h
  | cons a rest ih =>
    intro g evs h
    have h2 := gateInv_step g evs a h
    simpa [grun] using ih _ _ h2

/-- C1: the worker handles an invalidation request by clearing the pending
slot at pickup, before the refresh serving the request begins (first
conjunct, directly from the workerRecv step), and a request completes,
storing the error and closing done, only via a later workerFinish; as a
consequence, in every trace of the gate system, every caller parked on a
request r entered the gate strictly before the pickup that began the
refresh serving r (no enter of r follows the pickup, so all of them
precede it), no completion of r precedes that pickup, and r is picked up
at most once.  Each Invalidate caller unblocks only at the finished event
of its request, hence only after a refresh attempt that began strictly
after its call entered the gate. -/
theorem invalidate_freshness (acts : List GAct) (r : Nat) (l1 l2 : List GEv)
    (h : (grun {} [] acts).2 = l1 ++ GEv.pickup r :: l2) :
    (∀ (g0 : GateCfg) (r0 : Nat), g0.closed = false → g0.sender = some r0 →
      g0.inflight = none → (gstep g0 .workerRecv).1.pending = none ∧
        (gstep g0 .workerRecv).2 = [GEv.pickup r0]) ∧
    (∀ c, GEv.enter c r ∉ l2) ∧
    (∀ e, GEv.finished r e ∉ l1) ∧
    GEv.pickup r ∉ l2 := by
  constructor
  · intro g0 r0 hcl hs0 hi0
    have hcl2 : ¬ g0.closed = true := by
      rw [hcl]
      simp
    constructor
    · simp [gstep, hcl2, hs0, hi0]
    · simp [gstep, hcl2, hs0, hi0]
  · have hinv := gateInv_run acts {} [] gateInv_init
    exact hinv.2.2.2.2.2 r l1 l2 h

/-- Witness for C1 on the concrete schedule caller 0 invalidates, worker
picks the request up, worker finishes with nil: the trace decomposes around
the pickup with both enter events before it and the completion after it. -/
theorem invalidate_freshness_witness :
    (∀ (g0 : GateCfg) (r0 : Nat), g0.closed = false → g0.sender = some r0 →
      g0.inflight = none → (gstep g0 .workerRecv).1.pending = none ∧
        (gstep g0 .workerRecv).2 = [GEv.pickup r0]) ∧
    (∀ c, GEv.enter c 0 ∉ [GEv.finished 0 none]) ∧
    (∀ e, GEv.finished 0 e ∉ [GEv.enter 0 0, GEv.created 0 0]) ∧
    GEv.pickup 0 ∉ [GEv.finished 0 none] :=
  invalidate_freshness [.invalidate 0, .workerRecv, .workerFinish none] 0
    [GEv.enter 0 0, GEv.created 0 0] [GEv.finished 0 none] (by decide)

end UniCache
